import Mathlib

/-!
Verification of the crawl-state / persistence / merge pipeline of `doulist.py`.

The Python source is shallowly embedded: Python strings become `List Char`
(`PyStr`), Python dicts of records become the `Item` structure with `Option`
fields (an absent dict key is `none`; `m.get(k) or ""` / `m.get(k, "")`
become `pyGet`), and the filesystem becomes an association list from path
to content (`FS`).  External collaborators that are out of scope (the JSON
codec, the RSS/XML encoder, the HTTP fetcher + HTML extractor) are passed
in as function parameters, exactly at the boundary where the source calls
into the corresponding library.
-/

set_option autoImplicit false

namespace Doulist

/-- Python strings, modelled as lists of characters. -/
abbrev PyStr := List Char

/-- ASCII whitespace recognised by Python's `str.strip()`:
space, tab, newline, carriage return, vertical tab, form feed. -/
def isPySpace (c : Char) : Bool :=
  c = ' ' || c = '\t' || c = '\n' || c = '\r' || c = '\x0b' || c = '\x0c'

/-- Drop leading whitespace (the left half of Python `str.strip()`). -/
def stripLeft (s : PyStr) : PyStr := s.dropWhile isPySpace

/-- Drop trailing whitespace (the right half of Python `str.strip()`). -/
def stripRight (s : PyStr) : PyStr := (stripLeft s.reverse).reverse

/-- Python `str.strip()`: remove leading and trailing whitespace. -/
def pyStrip (s : PyStr) : PyStr := stripRight (stripLeft s)

/-- Python `str.isdigit()` restricted to ASCII digits: non-empty and
every character a decimal digit. -/
def pyIsDigit (s : PyStr) : Bool := !s.isEmpty && s.all Char.isDigit

/-- Decimal value of a digit string, as Python `int(s)` computes it for a
string of ASCII digits. -/
def digitsToNat (s : PyStr) : Nat := s.foldl (fun acc c => acc * 10 + (c.toNat - 48)) 0

/-- `m.get(key) or ""` / `m.get(key, "")` on a record field: an absent
field becomes the empty string (an empty-string field stays empty). -/
def pyGet (o : Option PyStr) : PyStr := o.getD []

/-- One harvested record, the dict
`{title, link, year, director, cast, genre, country}` built by
`parse_page`, plus the `source` tag added by `crawl_single_doulist`.
Fields are `Option` because dict keys may be absent. -/
structure Item where
  title : Option PyStr
  link : Option PyStr
  year : Option PyStr
  director : Option PyStr
  cast : Option PyStr
  genre : Option PyStr
  country : Option PyStr
  source : Option PyStr
deriving DecidableEq

/-- File contents, as a character sequence. -/
abbrev Content := List Char

/-- The filesystem: an association list from path to file content.
`fsSet` removes stale bindings so each path is bound at most once. -/
abbrev FS := List (String × Content)

/-- Content of the file at `p`, `none` when no such file exists. -/
def fsGet : FS → String → Option Content
  | [], _ => none
  | (q, c) :: rest, p => if q = p then some c else fsGet rest p

/-- Delete the file at `p` (no-op when absent). -/
def fsRemove : FS → String → FS
  | [], _ => []
  | (q, c) :: rest, p => if q = p then fsRemove rest p else (q, c) :: fsRemove rest p

/-- Create or overwrite the file at `p` with content `c`. -/
def fsSet (fs : FS) (p : String) (c : Content) : FS := (p, c) :: fsRemove fs p

/-- `os.path.exists`. -/
def fsExists (fs : FS) (p : String) : Bool := (fsGet fs p).isSome

/-! ## Merge & dedup engine (`deduplicate_items`, lines 236-264) -/

/-- A dedup key: a tuple `(a, b)` for the `title_year` / `title_link`
modes, or a bare string for the `link` mode. -/
inductive DedupKey where
  | pair (a b : PyStr)
  | single (a : PyStr)
deriving DecidableEq

/-- The key `deduplicate_items` computes for one record: the relevant
fields are read with `m.get(...) or ""`, stripped, then combined
according to `mode` (`title_link` ↦ `(title, link)`, `link` ↦ `link`,
anything else ↦ `(title, year)`, the `title_year` default). -/
def dedupKey (mode : String) (m : Item) : DedupKey :=
  let title := pyStrip (pyGet m.title)
  let year := pyStrip (pyGet m.year)
  let link := pyStrip (pyGet m.link)
  if mode = "title_link" then .pair title link
  else if mode = "link" then .single link
  else .pair title year

/-- The loop of `deduplicate_items`: walk the input keeping a `seen` set
of keys (modelled as a list, membership-only use); a record whose key
was already seen is skipped, otherwise it is kept and its key recorded. -/
def dedupGo (mode : String) : List Item → List DedupKey → List Item
  | [], _ => []
  | m :: rest, seen =>
    if dedupKey mode m ∈ seen then dedupGo mode rest seen
    else m :: dedupGo mode rest (dedupKey mode m :: seen)

/-- `deduplicate_items(items, mode)`: first-occurrence-wins dedup. -/
def deduplicate_items (items : List Item) (mode : String) : List Item :=
  dedupGo mode items []

/-! ## Year filter (`normalize_year` lines 229-233, `filter_items_by_year` lines 267-287) -/

/-- `normalize_year`: strip the string; if the result is all digits
(`str.isdigit`), parse it as a (necessarily non-negative) integer,
otherwise `None`. -/
def normalize_year (year_str : PyStr) : Option Int :=
  let s := pyStrip year_str
  if pyIsDigit s then some (Int.ofNat (digitsToNat s)) else none

/-- The per-record decision of `filter_items_by_year`'s loop body:
unparseable year ⇒ drop; `min_year` set and `y < min_year` ⇒ drop;
`max_year` set and `y > max_year` ⇒ drop; otherwise keep. -/
def yearKeep (min_year max_year : Option Int) (m : Item) : Bool :=
  match normalize_year (pyGet m.year) with
  | none => false
  | some y =>
    (match min_year with | some a => decide (a ≤ y) | none => true) &&
    (match max_year with | some b => decide (y ≤ b) | none => true)

/-- `filter_items_by_year(items, min_year, max_year)`: the append-if-kept
loop, i.e. a filter by `yearKeep`. -/
def filter_items_by_year (items : List Item) (min_year max_year : Option Int) : List Item :=
  items.filter (yearKeep min_year max_year)

/-! ## Segmented output writer (`build_rss_segmented`, lines 345-441) -/

/-- `num = (total + chunk_size - 1) // chunk_size if total > 0 else 1`. -/
def numChunks (total chunk_size : Nat) : Nat :=
  if 0 < total then (total + chunk_size - 1) / chunk_size else 1

/-- The chunk slices of the writer's loop: for `i in range(num)`,
`items[i*chunk_size : min(i*chunk_size + chunk_size, total)]`. -/
def chunkSlices (items : List Item) (chunk_size : Nat) : List (List Item) :=
  (List.range (numChunks items.length chunk_size)).map
    (fun i => (items.drop (i * chunk_size)).take chunk_size)

/-- One entry of the `parts_info` manifest list. -/
structure PartInfo where
  file : String
  index : Nat
  of : Nat
  start_item : Nat
  end_item : Nat
  count : Nat
deriving DecidableEq

/-- The `parts_info` list accumulated by `build_rss_segmented`'s loop:
for each chunk, its file name `base ++ "_part_{i+1}_of_{num}" ++ ext`,
1-based index, total, 1-based start/end item positions, and item count. -/
def partsInfo (items : List Item) (chunk_size : Nat) (base ext : String) : List PartInfo :=
  let total := items.length
  let num := numChunks total chunk_size
  (List.range num).map (fun i =>
    let start := i * chunk_size
    let stop := min (start + chunk_size) total
    { file := base ++ "_part_" ++ toString (i + 1) ++ "_of_" ++ toString num ++ ext
      index := i + 1
      of := num
      start_item := if 0 < total then start + 1 else 0
      end_item := stop
      count := ((items.drop start).take chunk_size).length })

/-! ## Locking and atomic write (`_acquire_lock` lines 69-82, `_release_lock`
lines 85-90, `_atomic_write` lines 93-132) -/

/-- `_acquire_lock`: poll `os.open(lock_path, O_CREAT | O_EXCL)` with a
0.1 s sleep until the deadline.  The polling loop is modelled with an
explicit attempt budget standing for the time window (the real timeout
of 10 s is strictly positive, so the budget is positive).  No concurrent
process is modelled, so the filesystem is unchanged between polls: if
the marker exists the create-exclusive fails, otherwise it succeeds and
writes a pid marker. -/
def acquire_lock (fs : FS) (lock_path : String) : Nat → Bool × FS
  | 0 => (false, fs)
  | n + 1 =>
    if fsExists fs lock_path then acquire_lock fs lock_path n
    else (true, fsSet fs lock_path ['p'])

/-- The `finally` block of `_atomic_write`: `_release_lock` (remove the
lock marker, only when this call acquired it) and removal of the
temporary file when it exists. -/
def finallyCleanup (fs : FS) (lock_acquired : Bool) (lock_path tmp_path : String) : FS :=
  let fs1 := if lock_acquired then fsRemove fs lock_path else fs
  if fsExists fs1 tmp_path then fsRemove fs1 tmp_path else fs1

/-- `_atomic_write(path, writer_callable, enable_backup, enable_lock)`,
final-state semantics.  `hex` is the `uuid4().hex` of the temporary name
and `stamp` the backup timestamp.  `writer_ok` tells whether
`writer_callable` succeeds (on failure it leaves `unfinished` in the
temporary file and raises); `backup_ok` tells whether the best-effort
backup `os.replace(path, bak_name)` succeeds (its failure is swallowed).
Returns the error raised (if any) together with the filesystem after the
`finally` block ran. -/
def atomic_write (fs0 : FS) (path hex stamp : String) (content unfinished : Content)
    (writer_ok backup_ok enable_backup enable_lock : Bool) (attempts : Nat) :
    Option String × FS :=
  let tmp_path := path ++ ".tmp." ++ hex
  let lock_path := path ++ ".lock"
  let acq := if enable_lock then acquire_lock fs0 lock_path attempts else (false, fs0)
  if enable_lock && !acq.1 then
    (some ("cannot acquire write lock: " ++ lock_path),
     finallyCleanup acq.2 false lock_path tmp_path)
  else
    let fs1 := acq.2
    if !writer_ok then
      (some "writer failed",
       finallyCleanup (fsSet fs1 tmp_path unfinished) acq.1 lock_path tmp_path)
    else
      let fs2 := fsSet fs1 tmp_path content
      let fs3 :=
        if enable_backup && fsExists fs2 path && backup_ok then
          match fsGet fs2 path with
          | some old => fsSet (fsRemove fs2 path) (path ++ ".bak." ++ stamp) old
          | none => fs2
        else fs2
      let fs4 := fsSet (fsRemove fs3 tmp_path) path content
      (none, finallyCleanup fs4 acq.1 lock_path tmp_path)

/-- Crash-point semantics of `_atomic_write` with `enable_backup = True`,
`enable_lock = False` (the configuration every write of the pipeline
uses): the list of filesystem states visible if the process is killed
after any primitive filesystem operation.  The temporary file is written
incrementally, one character at a time, so every prefix of the new
content appears as an intermediate state of `tmp_path`; the backup step
`os.replace(path, bak_path)` and the final `os.replace(tmp_path, path)`
are each one atomic transition. -/
def atomicWriteTrace (fs0 : FS) (path tmp_path bak_path : String) (content : Content) :
    List FS :=
  let writes := (List.range (content.length + 1)).map
    (fun k => fsSet fs0 tmp_path (content.take k))
  let fs2 := fsSet fs0 tmp_path content
  let afterBackup :=
    match fsGet fs2 path with
    | some old => [fsSet (fsRemove fs2 path) bak_path old]
    | none => []
  let fs3 := afterBackup.getLastD fs2
  let fs4 := fsSet (fsRemove fs3 tmp_path) path content
  fs0 :: writes ++ afterBackup ++ [fs4]

/-! ## Cache store (`extract_doulist_id` lines 446-448, `cache_file_path`
lines 451-453, `load_cache` lines 456-464, `save_cache` lines 467-475) -/

/-- `extract_doulist_id(url)`: strip whitespace, strip `/`, split on `/`,
take the last segment (`"unknown"` for an empty parts list — dead in
Python, where `split` always returns a non-empty list). -/
def extract_doulist_id (url : String) : String :=
  let t := ((pyStrip url.toList).dropWhile (· = '/')).reverse.dropWhile (· = '/') |>.reverse
  let parts := (String.mk t).splitOn "/"
  (parts.getLast?).getD "unknown"

/-- `cache_file_path(cache_dir, doulist_id)` (the `safe_mkdir` directory
creation has no effect on the file map). -/
def cache_file_path (cache_dir doulist_id : String) : String :=
  cache_dir ++ "/doulist_" ++ doulist_id ++ ".json"

/-- `load_cache(cache_dir, doulist_id)`: read the cache file and decode
it with the JSON codec `decode` (an external collaborator; `decode c =
none` models `open`/`json.load` raising).  A missing file or a failed
decode yields `[]`. -/
def load_cache (decode : Content → Option (List Item)) (fs : FS)
    (cache_dir doulist_id : String) : List Item :=
  match fsGet fs (cache_file_path cache_dir doulist_id) with
  | none => []
  | some c => (decode c).getD []

/-- `save_cache(cache_dir, doulist_id, items)` as written in the source.
In the Python file the `_atomic_write(path, _write_json, ...)` call on
line 475 is indented to column 8, below a comment line; a comment line
does not close an indentation block, so that call is the second
statement of the body of the local helper `_write_json` (whose `with`
block at column 8 it continues), not a statement of `save_cache`.
`save_cache` itself therefore only computes the path (plus a directory
`mkdir`) and defines `_write_json` without ever calling it, so it
performs no filesystem write: the resulting file map is unchanged. -/
def save_cache (fs : FS) (cache_dir doulist_id : String) (items : List Item) : FS :=
  fs

/-! ## Crawl controller (`crawl_single_doulist`, lines 480-541) -/

/-- The `while True` pagination loop of `crawl_single_doulist`, driven
by the external fetch + extract collaborator `pages` (mapping a page URL
to `parse_page`'s records and `find_next_page`'s locator, `none` also
covering the falsy empty-string locator).  `fuel` bounds the unrolling
of the unbounded `while`.  Filesystem side effects of the loop body (the
per-page `save_cache` checkpoint and the progress-RSS write) do not
influence the accumulated list and are elided here. -/
def crawlGo (pages : String → List Item × Option String) (doulist_id : String) :
    Nat → String → List Item → List Item
  | 0, _, acc => acc
  | fuel + 1, url, acc =>
    let page_items := (pages url).1
    if page_items.isEmpty then acc
    else
      let tagged := page_items.map (fun it => { it with source := some doulist_id.toList })
      let acc2 := acc ++ tagged
      match (pages url).2 with
      | none => acc2
      | some next_url => crawlGo pages doulist_id fuel next_url acc2

/-- `crawl_single_doulist(start_url, start_page, ...)`: derive the
source id, load the cached records, and run the pagination loop from
`start_url ++ "?start=" ++ (start_page - 1)`, returning the accumulated
record list. -/
def crawl_single_doulist (pages : String → List Item × Option String)
    (decode : Content → Option (List Item)) (fs : FS)
    (start_url : String) (start_page : Nat) (cache_dir : String) (fuel : Nat) : List Item :=
  let doulist_id := extract_doulist_id start_url
  let all_items := load_cache decode fs cache_dir doulist_id
  crawlGo pages doulist_id fuel (start_url ++ "?start=" ++ toString (start_page - 1)) all_items

/-! ## Segmented writer, filesystem semantics -/

/-- Write a list of `(path, content)` documents in order, each through
`_atomic_write` with backup enabled and locking disabled (the writer and
the best-effort backup succeed); stop at the first error. -/
def writeAll (stamp : String) (hexes : Nat → String) :
    List (String × Content) → Nat → FS → Option String × FS
  | [], _, fs => (none, fs)
  | (p, c) :: rest, k, fs =>
    match atomic_write fs p (hexes k) stamp c [] true true true false 1 with
    | (some e, fs1) => (some e, fs1)
    | (none, fs1) => writeAll stamp hexes rest (k + 1) fs1

/-- `build_rss_segmented(items, ..., output_file, chunk_size)` as a
filesystem transformer.  `enc` is the external RSS document encoder and
`encManifest` the JSON encoding of the manifest body; `base`/`ext` are
`os.path.splitext(output_file)`.  An empty `items` list returns at once
(after a directory `mkdir` with no effect on the file map) without
writing anything; otherwise every chunk slice is written to its
`_part_{i}_of_{num}` path and finally the manifest is written to
`base ++ "_parts.json"`. -/
def build_rss_segmented (enc : List Item → Content)
    (encManifest : Nat → Nat → List PartInfo → Content)
    (fs : FS) (items : List Item) (base ext : String) (chunk_size : Nat)
    (hexes : Nat → String) (stamp : String) : Option String × FS :=
  if items.isEmpty then (none, fs)
  else
    let parts := partsInfo items chunk_size base ext
    let slices := chunkSlices items chunk_size
    let docs := (parts.zip slices).map (fun pc => (pc.1.file, enc pc.2))
    let manifest := (base ++ "_parts.json", encManifest items.length chunk_size parts)
    writeAll stamp hexes (docs ++ [manifest]) 0 fs

/-! ## Whitespace-variation predicates (for the dedup-key analysis) -/

/-- A string made only of Python whitespace. -/
def wsOnly (w : PyStr) : Prop := ∀ c ∈ w, isPySpace c

instance (w : PyStr) : Decidable (wsOnly w) := by
  unfold wsOnly
  infer_instance

/-- Two optional record fields that agree up to leading/trailing
whitespace once an absent field is read as the empty string: both read
as the same core surrounded by (possibly empty) whitespace. -/
def wsVariant (a b : Option PyStr) : Prop :=
  ∃ core w1 w2 w3 w4 : PyStr, wsOnly w1 ∧ wsOnly w2 ∧ wsOnly w3 ∧ wsOnly w4 ∧
    pyGet a = w1 ++ core ++ w2 ∧ pyGet b = w3 ++ core ++ w4

/-! ## Sample records (concrete inputs for witnesses) -/

/-- `{"title": "A", "link": "L", "year": "2001"}` with a source tag. -/
def itemA2001 : Item :=
  { title := some ['A'], link := some ['L'], year := some ['2', '0', '0', '1']
    director := none, cast := none, genre := none, country := none
    source := some ['s', '1'] }

/-- `{"title": "B", "link": "M", "year": "1999"}` with a source tag. -/
def itemB1999 : Item :=
  { title := some ['B'], link := some ['M'], year := some ['1', '9', '9', '9']
    director := none, cast := none, genre := none, country := none
    source := some ['s', '2'] }

/-- A later duplicate of `itemA2001` under `(title, year)`: same title
and year, different link and source. -/
def itemA2001dup : Item :=
  { title := some ['A'], link := some ['N'], year := some ['2', '0', '0', '1']
    director := none, cast := none, genre := none, country := none
    source := some ['s', '2'] }

/-- A record with a non-numeric year. -/
def itemNoYear : Item :=
  { title := some ['C'], link := some ['K'], year := some ['o', 'l', 'd']
    director := none, cast := none, genre := none, country := none
    source := none }

/-! # Theorems -/

/-! ## Filesystem lemmas -/

theorem fsGet_fsRemove (fs : FS) (p q : String) :
    fsGet (fsRemove fs p) q = if q = p then none else fsGet fs q := by
  induction fs with
  | nil => simp [fsRemove, fsGet]
  | cons e rest ih =>
    obtain ⟨r, c⟩ := e
    by_cases hrp : r = p
    · subst hrp
      rw [fsRemove, if_pos rfl, ih]
      by_cases hqp : q = r
      · simp [hqp]
      · have hrq : ¬ r = q := fun h => hqp h.symm
        simp [hqp, fsGet, hrq]
    · rw [fsRemove, if_neg hrp, fsGet]
      by_cases hrq : r = q
      · subst hrq
        have hqp : ¬ r = p := hrp
        simp [fsGet, hqp]
      · rw [if_neg hrq, ih, fsGet, if_neg hrq]

theorem fsGet_fsSet (fs : FS) (p : String) (c : Content) (q : String) :
    fsGet (fsSet fs p c) q = if q = p then some c else fsGet fs q := by
  by_cases hqp : q = p
  · subst hqp; simp [fsSet, fsGet]
  · rw [fsSet, fsGet, if_neg (fun h => hqp h.symm), fsGet_fsRemove, if_neg hqp, if_neg hqp]

/-! ## C8: load_cache swallows missing and corrupt cache files -/

/-- C8: for every source id, `load_cache` returns the empty list rather
than an error both when no cache file exists and when the stored file
fails to decode (the `open`/`json.load` exception path): corruption is
swallowed, never surfaced. -/
theorem load_cache_missing_or_corrupt_gives_empty
    (decode : Content → Option (List Item)) (fs : FS) (cache_dir doulist_id : String) :
    (fsGet fs (cache_file_path cache_dir doulist_id) = none →
      load_cache decode fs cache_dir doulist_id = []) ∧
    (∀ c : Content, fsGet fs (cache_file_path cache_dir doulist_id) = some c →
      decode c = none → load_cache decode fs cache_dir doulist_id = []) := by
  constructor
  · intro h
    simp [load_cache, h]
  · intro c hc hd
    simp [load_cache, hc, hd]

/-- Witness for C8: a missing cache file and a present-but-undecodable
cache file both load as `[]`. -/
theorem load_cache_missing_or_corrupt_gives_empty_witness :
    load_cache (fun _ => none) [] "cache_doulist" "42" = [] ∧
    load_cache (fun _ => none) [("cache_doulist/doulist_42.json", ['z'])]
      "cache_doulist" "42" = [] := by
  constructor
  · exact (load_cache_missing_or_corrupt_gives_empty (fun _ => none) []
      "cache_doulist" "42").1 (by decide)
  · exact (load_cache_missing_or_corrupt_gives_empty (fun _ => none)
      [("cache_doulist/doulist_42.json", ['z'])] "cache_doulist" "42").2
      ['z'] (by decide) rfl

/-! ## C9: the segmented writer is a no-op on an empty record list -/

/-- C9: called on the empty record list, `build_rss_segmented` writes no
chunk file and no manifest and returns without error: the filesystem is
returned unchanged and the error component is `none`. -/
theorem build_rss_segmented_empty_is_noop
    (enc : List Item → Content) (encManifest : Nat → Nat → List PartInfo → Content)
    (fs : FS) (base ext : String) (chunk_size : Nat) (hexes : Nat → String) (stamp : String) :
    build_rss_segmented enc encManifest fs [] base ext chunk_size hexes stamp = (none, fs) := by
  simp [build_rss_segmented]

/-! ## C7: an empty page terminates pagination for the source -/

/-- C7: if a fetched page yields zero extracted records, the crawl loop
stops at once — whatever the page's next-page locator is — and returns
the accumulated sequence unchanged, as a normal result rather than an
error. -/
theorem crawl_empty_page_stops (pages : String → List Item × Option String)
    (doulist_id : String) (fuel : Nat) (url : String) (acc : List Item)
    (hempty : (pages url).1 = []) :
    crawlGo pages doulist_id (fuel + 1) url acc = acc := by
  simp [crawlGo, hempty]

/-- Witness for C7: a page with no records but with a next-page locator
present still stops the loop and returns the accumulated records. -/
theorem crawl_empty_page_stops_witness :
    crawlGo (fun _ => ([], some "https://example.org/next")) "42" 4
      "https://example.org/start" [itemA2001] = [itemA2001] :=
  crawl_empty_page_stops (fun _ => ([], some "https://example.org/next")) "42" 3
    "https://example.org/start" [itemA2001] rfl

/-! ## C1: save_cache persists nothing (indentation defect) -/

/-- C1 (failing input): `save_cache` on an empty cache directory with a
non-empty record list leaves the filesystem without any cache file, and
a subsequent `load_cache` returns `[]`, not the saved records.  In the
source the `_atomic_write` call of `save_cache` (line 475) is indented
into the body of the local `_write_json` helper, which is never invoked,
so the checkpoint claimed by the spec (and by the code's own comment on
line 474) is never written. -/
theorem save_cache_persists_nothing :
    save_cache [] "cache_doulist" "42" [itemA2001] = [] ∧
    load_cache (fun _ => none) (save_cache [] "cache_doulist" "42" [itemA2001])
      "cache_doulist" "42" = [] ∧
    [itemA2001] ≠ ([] : List Item) := by
  refine ⟨rfl, rfl, ?_⟩
  decide

/-! ## Dedup lemmas -/

theorem dedupGo_sublist (mode : String) :
    ∀ (items : List Item) (seen : List DedupKey), List.Sublist (dedupGo mode items seen) items := by
  intro items
  induction items with
  | nil => intro seen; simp [dedupGo]
  | cons m rest ih =>
    intro seen
    by_cases h : dedupKey mode m ∈ seen
    · rw [dedupGo, if_pos h]
      exact (ih seen).cons m
    · rw [dedupGo, if_neg h]
      exact (ih (dedupKey mode m :: seen)).cons₂ m

theorem dedupGo_key_not_seen (mode : String) :
    ∀ (items : List Item) (seen : List DedupKey) (m : Item),
      m ∈ dedupGo mode items seen → dedupKey mode m ∉ seen := by
  intro items
  induction items with
  | nil => intro seen m hm; simp [dedupGo] at hm
  | cons a rest ih =>
    intro seen m hm
    by_cases h : dedupKey mode a ∈ seen
    · rw [dedupGo, if_pos h] at hm
      exact ih seen m hm
    · rw [dedupGo, if_neg h] at hm
      rcases List.mem_cons.1 hm with h1 | h1
      · subst h1; exact h
      · intro hc
        exact ih _ m h1 (List.mem_cons_of_mem _ hc)

theorem dedupGo_pairwise (mode : String) :
    ∀ (items : List Item) (seen : List DedupKey),
      (dedupGo mode items seen).Pairwise (fun a b => dedupKey mode a ≠ dedupKey mode b) := by
  intro items
  induction items with
  | nil => intro seen; simp [dedupGo]
  | cons a rest ih =>
    intro seen
    by_cases h : dedupKey mode a ∈ seen
    · rw [dedupGo, if_pos h]; exact ih seen
    · rw [dedupGo, if_neg h]
      refine List.Pairwise.cons ?_ (ih _)
      intro b hb heq
      have hnot := dedupGo_key_not_seen mode rest _ b hb
      exact hnot (by rw [← heq]; exact List.mem_cons_self _ _)

theorem dedupGo_keeps_first (mode : String) :
    ∀ (items : List Item) (seen : List DedupKey) (i : Nat) (hi : i < items.length),
      dedupKey mode items[i] ∉ seen →
      (∀ j, (hj : j < items.length) → j < i →
        dedupKey mode items[j] ≠ dedupKey mode items[i]) →
      items[i] ∈ dedupGo mode items seen := by
  intro items
  induction items with
  | nil => intro seen i hi; simp at hi
  | cons a rest ih =>
    intro seen i hi hkey hfirst
    by_cases h : dedupKey mode a ∈ seen
    · rw [dedupGo, if_pos h]
      match i with
      | 0 =>
        simp only [List.getElem_cons_zero] at hkey
        exact absurd h hkey
      | i + 1 =>
        have hi' : i < rest.length := by simpa using hi
        simp only [List.getElem_cons_succ] at hkey ⊢
        exact ih seen i hi' hkey (fun j hj hji => by
          have := hfirst (j + 1) (by simpa using Nat.succ_lt_succ hj) (Nat.succ_lt_succ hji)
          simpa using this)
    · rw [dedupGo, if_neg h]
      match i with
      | 0 =>
        simp only [List.getElem_cons_zero]
        exact List.mem_cons_self _ _
      | i + 1 =>
        have hi' : i < rest.length := by simpa using hi
        simp only [List.getElem_cons_succ] at hkey ⊢
        refine List.mem_cons_of_mem _ (ih _ i hi' ?_ ?_)
        · intro hc
          rcases List.mem_cons.1 hc with h1 | h1
          · have := hfirst 0 (by simp) (Nat.succ_pos i)
            simp only [List.getElem_cons_zero, List.getElem_cons_succ] at this
            exact this h1.symm
          · exact hkey h1
        · intro j hj hji
          have := hfirst (j + 1) (by simpa using Nat.succ_lt_succ hj) (Nat.succ_lt_succ hji)
          simpa using this

theorem dedupGo_dropped (mode : String) :
    ∀ (items : List Item) (seen : List DedupKey) (i : Nat) (hi : i < items.length),
      items[i] ∉ dedupGo mode items seen →
      dedupKey mode items[i] ∈ seen ∨
        ∃ j, ∃ hj : j < items.length, j < i ∧
          dedupKey mode items[j] = dedupKey mode items[i] := by
  intro items
  induction items with
  | nil => intro seen i hi; simp at hi
  | cons a rest ih =>
    intro seen i hi hnot
    by_cases h : dedupKey mode a ∈ seen
    · rw [dedupGo, if_pos h] at hnot
      match i with
      | 0 =>
        simp only [List.getElem_cons_zero] at hnot ⊢
        exact Or.inl h
      | i + 1 =>
        have hi' : i < rest.length := by simpa using hi
        simp only [List.getElem_cons_succ] at hnot ⊢
        rcases ih seen i hi' hnot with h1 | ⟨j, hj, hji, hk⟩
        · exact Or.inl h1
        · exact Or.inr ⟨j + 1, by simpa using Nat.succ_lt_succ hj, Nat.succ_lt_succ hji,
            by simpa using hk⟩
    · rw [dedupGo, if_neg h] at hnot
      match i with
      | 0 =>
        simp only [List.getElem_cons_zero] at hnot
        exact absurd (List.mem_cons_self a _) hnot
      | i + 1 =>
        have hi' : i < rest.length := by simpa using hi
        simp only [List.getElem_cons_succ] at hnot ⊢
        have hnot' : rest[i] ∉ dedupGo mode rest (dedupKey mode a :: seen) :=
          fun hc => hnot (List.mem_cons_of_mem _ hc)
        rcases ih _ i hi' hnot' with h1 | ⟨j, hj, hji, hk⟩
        · rcases List.mem_cons.1 h1 with h2 | h2
          · exact Or.inr ⟨0, by simp, Nat.succ_pos i, by simpa using h2.symm⟩
          · exact Or.inl h2
        · exact Or.inr ⟨j + 1, by simpa using Nat.succ_lt_succ hj, Nat.succ_lt_succ hji,
            by simpa using hk⟩

/-! ## C3: deduplicate_items keeps the first occurrence of each key -/

/-- C3: for every record list and each dedup mode, `deduplicate_items`
produces a list with pairwise-distinct keys, in input order (a sublist
of the input); a record with no earlier same-key record is kept, and
every discarded record has an earlier-positioned record with the same
key. -/
theorem dedup_first_occurrence_wins (items : List Item) (mode : String)
    (hmode : mode = "title_year" ∨ mode = "title_link" ∨ mode = "link") :
    (deduplicate_items items mode).Pairwise (fun a b => dedupKey mode a ≠ dedupKey mode b) ∧
    List.Sublist (deduplicate_items items mode) items ∧
    (∀ i, (hi : i < items.length) →
      (∀ j, (hj : j < items.length) → j < i →
        dedupKey mode items[j] ≠ dedupKey mode items[i]) →
      items[i] ∈ deduplicate_items items mode) ∧
    (∀ i, (hi : i < items.length) → items[i] ∉ deduplicate_items items mode →
      ∃ j, ∃ hj : j < items.length, j < i ∧
        dedupKey mode items[j] = dedupKey mode items[i]) := by
  refine ⟨dedupGo_pairwise mode items [], dedupGo_sublist mode items [], ?_, ?_⟩
  · intro i hi hfirst
    exact dedupGo_keeps_first mode items [] i hi (by simp) hfirst
  · intro i hi hnot
    exact (dedupGo_dropped mode items [] i hi hnot).resolve_left (by simp)

/-- Witness for C3 on `[A2001, B1999, A2001dup]` in `title_year` mode:
the hypotheses hold and the conclusion instantiates — in particular the
duplicate at position 2 is discarded in favour of position 0. -/
theorem dedup_first_occurrence_wins_witness :
    ("title_year" = "title_year" ∨ "title_year" = "title_link" ∨ "title_year" = "link") ∧
    ((deduplicate_items [itemA2001, itemB1999, itemA2001dup] "title_year").Pairwise
        (fun a b => dedupKey "title_year" a ≠ dedupKey "title_year" b) ∧
      List.Sublist (deduplicate_items [itemA2001, itemB1999, itemA2001dup] "title_year")
        [itemA2001, itemB1999, itemA2001dup] ∧
      (∀ i, (hi : i < ([itemA2001, itemB1999, itemA2001dup] : List Item).length) →
        (∀ j, (hj : j < ([itemA2001, itemB1999, itemA2001dup] : List Item).length) → j < i →
          dedupKey "title_year" ([itemA2001, itemB1999, itemA2001dup] : List Item)[j] ≠
            dedupKey "title_year" ([itemA2001, itemB1999, itemA2001dup] : List Item)[i]) →
        ([itemA2001, itemB1999, itemA2001dup] : List Item)[i] ∈
          deduplicate_items [itemA2001, itemB1999, itemA2001dup] "title_year") ∧
      (∀ i, (hi : i < ([itemA2001, itemB1999, itemA2001dup] : List Item).length) →
        ([itemA2001, itemB1999, itemA2001dup] : List Item)[i] ∉
          deduplicate_items [itemA2001, itemB1999, itemA2001dup] "title_year" →
        ∃ j, ∃ hj : j < ([itemA2001, itemB1999, itemA2001dup] : List Item).length, j < i ∧
          dedupKey "title_year" ([itemA2001, itemB1999, itemA2001dup] : List Item)[j] =
            dedupKey "title_year" ([itemA2001, itemB1999, itemA2001dup] : List Item)[i])) :=
  ⟨Or.inl rfl,
    dedup_first_occurrence_wins [itemA2001, itemB1999, itemA2001dup] "title_year" (Or.inl rfl)⟩

/-! ## Whitespace-stripping lemmas -/

theorem dropWhile_append_of_all {p : Char → Bool} :
    ∀ (w s : List Char), (∀ c ∈ w, p c) → (w ++ s).dropWhile p = s.dropWhile p := by
  intro w
  induction w with
  | nil => intro s _; rfl
  | cons c w ih =>
    intro s h
    have hc : p c := h c (List.mem_cons_self _ _)
    simp only [List.cons_append, List.dropWhile_cons, hc, if_true]
    exact ih s (fun d hd => h d (List.mem_cons_of_mem _ hd))

theorem stripLeft_ws_append (w s : PyStr) (hw : wsOnly w) :
    stripLeft (w ++ s) = stripLeft s :=
  dropWhile_append_of_all w s hw

theorem stripLeft_all_ws (w : PyStr) (hw : wsOnly w) : stripLeft w = [] := by
  have := stripLeft_ws_append w [] hw
  simpa [stripLeft] using this

theorem stripLeft_append (s t : PyStr) :
    stripLeft (s ++ t) = if (stripLeft s).isEmpty then stripLeft t else stripLeft s ++ t := by
  induction s with
  | nil => simp [stripLeft]
  | cons c s ih =>
    by_cases hc : isPySpace c
    · simp only [List.cons_append, stripLeft, List.dropWhile_cons, hc, if_true]
      exact ih
    · simp [stripLeft, List.dropWhile_cons, hc]

theorem stripRight_ws_append (s w : PyStr) (hw : wsOnly w) :
    stripRight (s ++ w) = stripRight s := by
  unfold stripRight
  rw [List.reverse_append, stripLeft_ws_append]
  intro c hc
  exact hw c (List.mem_reverse.1 hc)

theorem pyStrip_ws_bracket (core w1 w2 : PyStr) (h1 : wsOnly w1) (h2 : wsOnly w2) :
    pyStrip (w1 ++ core ++ w2) = pyStrip core := by
  unfold pyStrip
  rw [List.append_assoc, stripLeft_ws_append _ _ h1, stripLeft_append]
  by_cases hc : (stripLeft core).isEmpty
  · rw [if_pos hc, stripLeft_all_ws w2 h2]
    have hcore : stripLeft core = [] := by
      cases h : stripLeft core
      · rfl
      · rw [h] at hc; simp at hc
    rw [hcore]
  · rw [if_neg hc, stripRight_ws_append _ _ h2]

theorem pyStrip_wsVariant (a b : Option PyStr) (h : wsVariant a b) :
    pyStrip (pyGet a) = pyStrip (pyGet b) := by
  obtain ⟨core, w1, w2, w3, w4, hw1, hw2, hw3, hw4, ha, hb⟩ := h
  rw [ha, hb, pyStrip_ws_bracket core w1 w2 hw1 hw2, pyStrip_ws_bracket core w3 w4 hw3 hw4]

theorem dedupKey_of_wsVariant (mode : String) (m1 m2 : Item)
    (ht : wsVariant m1.title m2.title) (hy : wsVariant m1.year m2.year)
    (hl : wsVariant m1.link m2.link) : dedupKey mode m1 = dedupKey mode m2 := by
  unfold dedupKey
  rw [pyStrip_wsVariant _ _ ht, pyStrip_wsVariant _ _ hy, pyStrip_wsVariant _ _ hl]

/-! ## C10: keys are computed from stripped fields; kept records are unmodified -/

/-- C10: the dedup key ignores leading/trailing whitespace in the title,
year and link fields (and an absent field reads as the empty string):
two records whose key fields agree up to such whitespace get the same
key, and deduplicating a pair of such records keeps exactly the first
one, with its fields untouched (the original record, not a stripped
copy). -/
theorem dedup_key_strips_whitespace :
    (∀ (mode : String) (m1 m2 : Item), wsVariant m1.title m2.title →
      wsVariant m1.year m2.year → wsVariant m1.link m2.link →
      dedupKey mode m1 = dedupKey mode m2) ∧
    (∀ (mode : String) (m1 m2 : Item), wsVariant m1.title m2.title →
      wsVariant m1.year m2.year → wsVariant m1.link m2.link →
      deduplicate_items [m1, m2] mode = [m1]) := by
  refine ⟨dedupKey_of_wsVariant, ?_⟩
  intro mode m1 m2 ht hy hl
  have hk : dedupKey mode m2 = dedupKey mode m1 :=
    (dedupKey_of_wsVariant mode m1 m2 ht hy hl).symm
  simp [deduplicate_items, dedupGo, hk]

/-- Witness for C10: `" A "` with year `"2001"` and an absent link versus
`"A"` with year `" 2001"` and an empty link collapse, keeping the first
record with its whitespace intact. -/
theorem dedup_key_strips_whitespace_witness :
    deduplicate_items
      [{ title := some [' ', 'A', ' '], link := none, year := some ['2', '0', '0', '1']
         director := none, cast := none, genre := none, country := none, source := none },
       { title := some ['A'], link := some [], year := some [' ', '2', '0', '0', '1']
         director := none, cast := none, genre := none, country := none, source := none }]
      "title_year" =
      [{ title := some [' ', 'A', ' '], link := none, year := some ['2', '0', '0', '1']
         director := none, cast := none, genre := none, country := none, source := none }] :=
  dedup_key_strips_whitespace.2 "title_year" _ _
    ⟨['A'], [' '], [' '], [], [], by decide, by decide, by decide, by decide, rfl, rfl⟩
    ⟨['2', '0', '0', '1'], [], [], [' '], [], by decide, by decide, by decide, by decide, rfl, rfl⟩
    ⟨[], [], [], [], [], by decide, by decide, by decide, by decide, rfl, rfl⟩

/-! ## C4: the year filter -/

theorem normalize_year_nonneg (s : PyStr) (y : Int) (h : normalize_year s = some y) :
    0 ≤ y := by
  simp only [normalize_year] at h
  split at h
  · injection h with h
    exact h ▸ Int.ofNat_nonneg _
  · cases h

/-- C4: with at least one bound active, `filter_items_by_year` keeps a
record iff its `year` field parses (`normalize_year`) to a non-negative
integer satisfying every active bound inclusively; a record whose year
is absent or non-numeric is dropped, not passed through. -/
theorem filter_year_keeps_iff (items : List Item) (min_year max_year : Option Int)
    (hactive : min_year.isSome = true ∨ max_year.isSome = true) (m : Item) :
    m ∈ filter_items_by_year items min_year max_year ↔
      m ∈ items ∧ ∃ y : Int, normalize_year (pyGet m.year) = some y ∧ 0 ≤ y ∧
        (∀ a, min_year = some a → a ≤ y) ∧ (∀ b, max_year = some b → y ≤ b) := by
  rw [filter_items_by_year, List.mem_filter]
  apply and_congr_right
  intro _
  constructor
  · intro hk
    cases hny : normalize_year (pyGet m.year) with
    | none => rw [yearKeep, hny] at hk; cases hk
    | some y =>
      rw [yearKeep, hny, Bool.and_eq_true] at hk
      refine ⟨y, rfl, normalize_year_nonneg _ _ hny, ?_, ?_⟩
      · intro a ha
        rw [ha] at hk
        exact of_decide_eq_true hk.1
      · intro b hb
        rw [hb] at hk
        exact of_decide_eq_true hk.2
  · rintro ⟨y, hy, _, hmin, hmax⟩
    simp only [yearKeep, hy]
    cases min_year with
    | none =>
      cases max_year with
      | none => rfl
      | some b => simpa using hmax b rfl
    | some a =>
      cases max_year with
      | none => simpa using hmin a rfl
      | some b => simp [hmin a rfl, hmax b rfl]

/-- Witness for C4: with `min_year = 2000` active, the 2001 record is
kept and its parsed year satisfies the bound. -/
theorem filter_year_keeps_iff_witness :
    ((some (2000 : Int)).isSome = true ∨ (none : Option Int).isSome = true) ∧
    (itemA2001 ∈ filter_items_by_year [itemA2001, itemNoYear] (some 2000) none ↔
      itemA2001 ∈ [itemA2001, itemNoYear] ∧
        ∃ y : Int, normalize_year (pyGet itemA2001.year) = some y ∧ 0 ≤ y ∧
          (∀ a, (some (2000 : Int)) = some a → a ≤ y) ∧
          (∀ b, (none : Option Int) = some b → y ≤ b)) :=
  ⟨Or.inl rfl,
    filter_year_keeps_iff [itemA2001, itemNoYear] (some 2000) none (Or.inl rfl) itemA2001⟩

/-! ## Chunking lemmas -/

theorem range'_drop : ∀ (n k a : Nat), (List.range' a n).drop k = List.range' (a + k) (n - k) := by
  intro n
  induction n with
  | zero => intro k a; simp
  | succ n ih =>
    intro k a
    cases k with
    | zero => simp
    | succ k =>
      rw [List.range'_succ, List.drop_succ_cons, ih k (a + 1)]
      congr 1 <;> omega

theorem range'_take : ∀ (n k a : Nat), (List.range' a n).take k = List.range' a (min k n) := by
  intro n
  induction n with
  | zero => intro k a; simp
  | succ n ih =>
    intro k a
    cases k with
    | zero => simp
    | succ k =>
      rw [List.range'_succ, List.take_succ_cons, ih k (a + 1)]
      have hm : min (k + 1) (n + 1) = min k n + 1 := by omega
      rw [hm, List.range'_succ]

theorem numChunks_one (n C : Nat) (hC : 0 < C) (h0 : 0 < n) (hn : n ≤ C) :
    numChunks n C = 1 := by
  unfold numChunks
  rw [if_pos h0]
  exact Nat.div_eq_of_lt_le (by omega) (by omega)

theorem numChunks_succ (n C : Nat) (hC : 0 < C) (hn : C < n) :
    numChunks n C = numChunks (n - C) C + 1 := by
  unfold numChunks
  rw [if_pos (by omega), if_pos (by omega)]
  have h1 : n + C - 1 = (n - C + C - 1) + C := by omega
  rw [h1, Nat.add_div_right _ hC]

theorem chunks_join {α : Type} (C : Nat) (hC : 0 < C) :
    ∀ (n : Nat) (l : List α), l.length = n →
      ((List.range (numChunks l.length C)).map (fun i => (l.drop (i * C)).take C)).flatten
        = l := by
  intro n
  induction n using Nat.strong_induction_on with
  | _ n ih =>
    intro l hl
    by_cases h0 : l.length = 0
    · have hnil : l = [] := List.length_eq_zero.mp h0
      subst hnil
      simp [numChunks]
    · by_cases hsmall : l.length ≤ C
      · rw [numChunks_one _ C hC (Nat.pos_of_ne_zero h0) hsmall]
        rw [show List.range 1 = [0] from rfl, List.map_cons, List.map_nil, List.flatten_cons, List.flatten_nil,
          List.append_nil, Nat.zero_mul, List.drop_zero, List.take_of_length_le hsmall]
      · push_neg at hsmall
        rw [numChunks_succ l.length C hC hsmall, List.range_succ_eq_map]
        rw [List.map_cons, List.map_map, List.flatten_cons]
        have hcomp : ((List.range (numChunks (l.length - C) C)).map
            ((fun i => (l.drop (i * C)).take C) ∘ Nat.succ)) =
            (List.range (numChunks (l.length - C) C)).map
              (fun i => ((l.drop C).drop (i * C)).take C) := by
          apply List.map_congr_left
          intro i _
          simp only [Function.comp_apply]
          rw [List.drop_drop]
          congr 2
          rw [Nat.succ_mul]
          omega
        rw [hcomp]
        have hlen : (l.drop C).length = l.length - C := List.length_drop C l
        have ihc := ih (l.length - C) (by omega) (l.drop C) (by omega)
        rw [hlen] at ihc
        rw [Nat.zero_mul, List.drop_zero, ihc, List.take_append_drop]

/-! ## C5: chunk slices and manifest ranges partition the record list -/

/-- C5: for a non-empty record list of length `N` and positive chunk
size `C`, the writer produces exactly `(N + C - 1) / C = ceil(N/C)`
chunks; chunk `i` (0-based) is the slice `items[i*C : i*C + C]`; the
concatenation of the chunks is the whole list, the manifest's 1-based
`start_item`/`count` ranges concatenate to exactly `1..N` (no gaps, no
overlaps), and each manifest entry records `start = i*C + 1`,
`end = min(i*C + C, N)` and the slice's length as its count. -/
theorem segmented_chunks_partition (items : List Item) (chunk_size : Nat) (base ext : String)
    (hN : 0 < items.length) (hC : 0 < chunk_size) :
    (chunkSlices items chunk_size).length = (items.length + chunk_size - 1) / chunk_size ∧
    (chunkSlices items chunk_size).flatten = items ∧
    ((partsInfo items chunk_size base ext).map
        (fun p => List.range' p.start_item p.count)).flatten = List.range' 1 items.length ∧
    (∀ i, i < (items.length + chunk_size - 1) / chunk_size →
      (chunkSlices items chunk_size)[i]? =
        some ((items.drop (i * chunk_size)).take chunk_size) ∧
      ((partsInfo items chunk_size base ext)[i]?).map
          (fun p => (p.start_item, p.end_item, p.count)) =
        some (i * chunk_size + 1, min (i * chunk_size + chunk_size) items.length,
          min chunk_size (items.length - i * chunk_size))) := by
  have hnum : numChunks items.length chunk_size =
      (items.length + chunk_size - 1) / chunk_size := by
    unfold numChunks
    rw [if_pos hN]
  refine ⟨?_, ?_, ?_, ?_⟩
  · rw [chunkSlices, List.length_map, List.length_range, hnum]
  · exact chunks_join chunk_size hC items.length items rfl
  · rw [partsInfo, List.map_map]
    have hpt : ((List.range (numChunks items.length chunk_size)).map
        ((fun p : PartInfo => List.range' p.start_item p.count) ∘ fun i =>
          { file := base ++ "_part_" ++ toString (i + 1) ++ "_of_" ++
              toString (numChunks items.length chunk_size) ++ ext
            index := i + 1
            of := numChunks items.length chunk_size
            start_item := if 0 < items.length then i * chunk_size + 1 else 0
            end_item := min (i * chunk_size + chunk_size) items.length
            count := ((items.drop (i * chunk_size)).take chunk_size).length })) =
        (List.range (numChunks (List.range' 1 items.length).length chunk_size)).map
          (fun i => ((List.range' 1 items.length).drop (i * chunk_size)).take chunk_size) := by
      rw [List.length_range']
      apply List.map_congr_left
      intro i _
      simp only [Function.comp_apply, if_pos hN]
      rw [range'_drop, range'_take, List.length_take, List.length_drop]
      congr 1
      omega
    rw [hpt, chunks_join chunk_size hC (List.range' 1 items.length).length _ rfl]
  · intro i hi
    have hi' : i < numChunks items.length chunk_size := by rw [hnum]; exact hi
    constructor
    · rw [chunkSlices, List.getElem?_map, List.getElem?_range hi']
      rfl
    · rw [partsInfo, List.getElem?_map, List.getElem?_range hi']
      simp only [Option.map_some']
      rw [if_pos hN]
      simp only [List.length_take, List.length_drop]

/-- Witness for C5: seven records, chunk size 3 — three chunks covering
items 1-3, 4-6, 7. -/
theorem segmented_chunks_partition_witness :
    (0 < ([itemA2001, itemB1999, itemA2001dup, itemNoYear, itemA2001, itemB1999,
        itemA2001dup] : List Item).length) ∧ (0 < 3) ∧
    ((chunkSlices [itemA2001, itemB1999, itemA2001dup, itemNoYear, itemA2001, itemB1999,
        itemA2001dup] 3).length = 3 ∧
      ((partsInfo [itemA2001, itemB1999, itemA2001dup, itemNoYear, itemA2001, itemB1999,
          itemA2001dup] 3 "merged_all_doulists" ".xml").map
          (fun p => List.range' p.start_item p.count)).flatten = List.range' 1 7) := by
  have h := segmented_chunks_partition
    [itemA2001, itemB1999, itemA2001dup, itemNoYear, itemA2001, itemB1999, itemA2001dup]
    3 "merged_all_doulists" ".xml" (by decide) (by decide)
  exact ⟨by decide, by decide, by simpa using h.1, h.2.2.1⟩

/-! ## Locking lemmas -/

theorem acquire_lock_held (fs : FS) (lock_path : String) (h : fsExists fs lock_path = true) :
    ∀ attempts, acquire_lock fs lock_path attempts = (false, fs) := by
  intro attempts
  induction attempts with
  | zero => rfl
  | succ n ih =>
    rw [acquire_lock, if_pos h]
    exact ih

/-! ## C6: lock contention fails the save cleanly; an acquired lock is released -/

/-- C6: with locking enabled, (1) if the lock marker is already present
(and stays, no other process being modelled), `_atomic_write` polls
until the attempt budget is exhausted and fails with the
lock-unavailable error, leaving the filesystem exactly as it was — no
temporary file is created and the foreign lock marker is not removed;
(2) if the lock is free and acquired but the write itself fails, the
`finally` block removes both the lock marker and the temporary file,
touching no other path. -/
theorem atomic_write_lock_contention_and_release (fs0 : FS) (path hex stamp : String)
    (content unfinished : Content) (backup_ok enable_backup : Bool) (attempts : Nat)
    (hfresh : fsGet fs0 (path ++ ".tmp." ++ hex) = none) :
    (fsExists fs0 (path ++ ".lock") = true →
      atomic_write fs0 path hex stamp content unfinished true backup_ok enable_backup
          true attempts
        = (some ("cannot acquire write lock: " ++ (path ++ ".lock")), fs0)) ∧
    (fsGet fs0 (path ++ ".lock") = none →
      (path ++ ".lock") ≠ (path ++ ".tmp." ++ hex) →
      (atomic_write fs0 path hex stamp content unfinished false backup_ok enable_backup
          true (attempts + 1)).1.isSome = true ∧
      fsGet (atomic_write fs0 path hex stamp content unfinished false backup_ok enable_backup
          true (attempts + 1)).2 (path ++ ".lock") = none ∧
      fsGet (atomic_write fs0 path hex stamp content unfinished false backup_ok enable_backup
          true (attempts + 1)).2 (path ++ ".tmp." ++ hex) = none ∧
      ∀ q, q ≠ path ++ ".lock" → q ≠ path ++ ".tmp." ++ hex →
        fsGet (atomic_write fs0 path hex stamp content unfinished false backup_ok enable_backup
          true (attempts + 1)).2 q = fsGet fs0 q) := by
  constructor
  · intro hlock
    simp only [atomic_write, acquire_lock_held fs0 (path ++ ".lock") hlock attempts,
      if_true, Bool.true_and, Bool.not_false, if_pos]
    simp [finallyCleanup, fsExists, hfresh]
  · intro hfree hne
    have hacq : acquire_lock fs0 (path ++ ".lock") (attempts + 1)
        = (true, fsSet fs0 (path ++ ".lock") ['p']) := by
      rw [acquire_lock, if_neg]
      simp [fsExists, hfree]
    simp only [atomic_write, hacq, Bool.not_true, Bool.and_false, Bool.false_eq_true,
      if_false, Bool.not_false, if_true]
    refine ⟨by simp, ?_, ?_, ?_⟩
    · simp [finallyCleanup, fsExists, fsGet_fsSet, fsGet_fsRemove, Ne.symm hne, hne]
    · simp [finallyCleanup, fsExists, fsGet_fsSet, fsGet_fsRemove, Ne.symm hne, hne]
    · intro q hq1 hq2
      simp [finallyCleanup, fsExists, fsGet_fsSet, fsGet_fsRemove, Ne.symm hne, hne, hq1, hq2]

/-- Witness for C6: a held lock at `f.lock` aborts the write of `f`
untouched; a free lock with a failing writer leaves neither lock nor
temporary file behind. -/
theorem atomic_write_lock_contention_and_release_witness :
    (atomic_write [("f.lock", ['p'])] "f" "x" "s" ['n'] ['u'] true true true true 5
      = (some ("cannot acquire write lock: " ++ ("f" ++ ".lock")), [("f.lock", ['p'])])) ∧
    ((atomic_write [] "f" "x" "s" ['n'] ['u'] false true true true 5).1.isSome = true ∧
      fsGet (atomic_write [] "f" "x" "s" ['n'] ['u'] false true true true 5).2
        ("f" ++ ".lock") = none ∧
      fsGet (atomic_write [] "f" "x" "s" ['n'] ['u'] false true true true 5).2
        ("f" ++ ".tmp." ++ "x") = none ∧
      ∀ q, q ≠ "f" ++ ".lock" → q ≠ "f" ++ ".tmp." ++ "x" →
        fsGet (atomic_write [] "f" "x" "s" ['n'] ['u'] false true true true 5).2 q
          = fsGet [] q) :=
  ⟨(atomic_write_lock_contention_and_release [("f.lock", ['p'])] "f" "x" "s" ['n'] ['u']
      true true 5 (by decide)).1 (by decide),
    (atomic_write_lock_contention_and_release [] "f" "x" "s" ['n'] ['u']
      true true 4 (by decide)).2 (by decide) (by decide)⟩

/-! ## C2: crash states of the atomic write -/

/-- C2 is refuted as stated: with backup enabled (the configuration all
pipeline writes use) and a pre-existing target, the step that renames
the old file aside to the backup path leaves an intermediate state in
which the target path holds neither the complete prior content `['o']`
nor the complete new content `['n']` — it is absent. -/
theorem atomic_write_prior_or_new_refuted :
    ¬ ∀ s ∈ atomicWriteTrace [("f", ['o'])] "f" "f.tmp.x" "f.bak.y" ['n'],
        fsGet s "f" = fsGet [("f", ['o'])] "f" ∨ fsGet s "f" = some ['n'] := by
  decide

/-- C2 amended: at every intermediate crash point of `_atomic_write`
(temporary-file bytes written one at a time, then the backup rename,
then the final rename) the target path holds the complete prior
content, or is absent — momentarily moved aside to the timestamped
backup right before the final replace — or holds the complete new
content; it never holds a partially written mix, and the final state
holds the complete new content. -/
theorem atomic_write_target_complete_or_absent (fs0 : FS) (path tmp_path bak_path : String)
    (content : Content) (htp : tmp_path ≠ path) (hbp : bak_path ≠ path) :
    (∀ s ∈ atomicWriteTrace fs0 path tmp_path bak_path content,
        fsGet s path = fsGet fs0 path ∨ fsGet s path = none ∨
          fsGet s path = some content) ∧
    fsGet ((atomicWriteTrace fs0 path tmp_path bak_path content).getLastD fs0) path
      = some content := by
  constructor
  · intro s hs
    simp only [atomicWriteTrace] at hs
    rcases List.mem_cons.1 hs with rfl | hs
    · exact Or.inl rfl
    rcases List.mem_append.1 hs with hs | hs
    · rcases List.mem_append.1 hs with hs | hs
      · rcases List.mem_map.1 hs with ⟨k, _, rfl⟩
        rw [fsGet_fsSet, if_neg (fun h => htp h.symm)]
        exact Or.inl rfl
      · cases hb : fsGet (fsSet fs0 tmp_path content) path with
        | none => rw [hb] at hs; simp at hs
        | some old =>
          rw [hb] at hs
          rcases List.mem_singleton.1 hs with rfl
          rw [fsGet_fsSet, if_neg (fun h => hbp h.symm), fsGet_fsRemove, if_pos rfl]
          exact Or.inr (Or.inl rfl)
    · rcases List.mem_singleton.1 hs with rfl
      rw [fsGet_fsSet, if_pos rfl]
      exact Or.inr (Or.inr rfl)
  · simp only [atomicWriteTrace]
    rw [List.getLastD_concat, fsGet_fsSet, if_pos rfl]

/-- Witness for the amended C2 on a concrete filesystem with a
pre-existing target. -/
theorem atomic_write_target_complete_or_absent_witness :
    ("f.tmp.x" ≠ "f") ∧ ("f.bak.y" ≠ "f") ∧
    ((∀ s ∈ atomicWriteTrace [("f", ['o'])] "f" "f.tmp.x" "f.bak.y" ['n'],
        fsGet s "f" = fsGet [("f", ['o'])] "f" ∨ fsGet s "f" = none ∨
          fsGet s "f" = some ['n']) ∧
      fsGet ((atomicWriteTrace [("f", ['o'])] "f" "f.tmp.x" "f.bak.y" ['n']).getLastD
        [("f", ['o'])]) "f" = some ['n']) :=
  ⟨by decide, by decide,
    atomic_write_target_complete_or_absent [("f", ['o'])] "f" "f.tmp.x" "f.bak.y" ['n']
      (by decide) (by decide)⟩

end Doulist
